import Mathlib

/-!
# Memory mapping (`memory_mapping.cpp`, `memory_mapping.hpp`, `memory_mapping.t.cpp`)

A shallow embedding of `nzl::MemoryMapping` and of the two platform backends
that establish and release a mapping.

* Pointers are natural numbers, `nullptr` is `0`.
* The operating system is an explicit state (`Posix`, `Win64`) that records the
  resources a process holds; the result of every system call of one run is
  given by a record (`PosixResults`, `Win64Results`), so that a theorem
  quantified over the record covers every outcome of every call.
* A C++ exception is the `Except.error` branch of the result.
-/

namespace nzl

/-! ## The POSIX environment -/

/-- Resources of the process as the POSIX backend sees them. -/
structure Posix where
  /-- open file descriptors -/
  fds : List Nat
  /-- mapped regions, as `(address, length)` -/
  maps : List (Nat × Nat)
  /-- every `munmap(address, length)` call issued so far, oldest first -/
  unmaps : List (Nat × Nat)
  /-- the current value of `errno` -/
  errno : Int
deriving DecidableEq, Repr

/-- What the kernel answers during one run of `make_mapping`.
`Except.error e` is the failure value of the call (`-1`, `MAP_FAILED`) with
`errno` set to `e`; `Except.ok` carries the descriptor, `st_size`, or the
address of the new region. -/
structure PosixResults where
  open_r : Except Int Nat
  fstat_r : Except Int Int
  mmap_r : Except Int Nat
  /-- `none`: `close` returns `0`; `some e`: it returns `-1` and sets `errno` to `e` -/
  close_r : Option Int

/-- The call `::open(path, O_RDONLY)`: `none` stands for the return value `-1`. -/
def sys_open (r : PosixResults) (w : Posix) : Option Nat × Posix :=
  match r.open_r with
  | .error e => (none, { w with errno := e })
  | .ok fd => (some fd, { w with fds := fd :: w.fds })

/-- The call `::fstat(fp, &sb)`: `none` stands for the return value `-1`,
`some n` for success with `sb.st_size = n`. -/
def sys_fstat (r : PosixResults) (w : Posix) : Option Int × Posix :=
  match r.fstat_r with
  | .error e => (none, { w with errno := e })
  | .ok n => (some n, w)

/-- The call `::mmap(nullptr, len, PROT_READ, MAP_SHARED, fp, 0)`: `none` stands
for `MAP_FAILED`. -/
def sys_mmap (len : Nat) (r : PosixResults) (w : Posix) : Option Nat × Posix :=
  match r.mmap_r with
  | .error e => (none, { w with errno := e })
  | .ok p => (some p, { w with maps := (p, len) :: w.maps })

/-- The call `::close(fp)`: the descriptor is released whatever `close` returns;
a failing `close` overwrites `errno`. -/
def sys_close (fp : Nat) (r : PosixResults) (w : Posix) : Posix :=
  match r.close_r with
  | none => { w with fds := w.fds.erase fp }
  | some e => { w with fds := w.fds.erase fp, errno := e }

/-- The call `::munmap(data, size)`: the region that starts at `data` is removed
and the call is logged. -/
def sys_munmap (data size : Nat) (w : Posix) : Posix :=
  { w with maps := w.maps.filter (fun m => decide (m.1 ≠ data)),
           unmaps := w.unmaps ++ [(data, size)] }

/-- The conversion `static_cast<std::size_t>(x)` of a signed 64-bit value. -/
def size_t_of (x : Int) : Nat := (x % 2 ^ 64).toNat

/-- The exception `std::system_error(errno, std::system_category(), path)`. -/
structure system_error where
  code : Int
  what_arg : String
deriving DecidableEq, Repr

namespace posix

/-- `make_mapping` of the POSIX backend (`memory_mapping.cpp`, lines 36-57). -/
def make_mapping (path : String) (r : PosixResults) (w : Posix) :
    Except system_error (Nat × Nat) × Posix :=
  match sys_open r w with
  | (none, w1) => (.error ⟨w1.errno, path⟩, w1)
  | (some fp, w1) =>
    match sys_fstat r w1 with
    | (none, w2) =>
      let w3 := sys_close fp r w2
      (.error ⟨w3.errno, path⟩, w3)
    | (some st_size, w2) =>
      match sys_mmap (size_t_of st_size) r w2 with
      | (data, w3) =>
        let w4 := sys_close fp r w3
        match data with
        | none => (.error ⟨w4.errno, path⟩, w4)
        | some p => (.ok (p, size_t_of st_size), w4)

/-- `clear_mapping` of the POSIX backend (`memory_mapping.cpp`, lines 59-66). -/
def clear_mapping (data size : Nat) (w : Posix) : (Nat × Nat) × Posix :=
  if data ≠ 0 then
    let w1 := sys_munmap data size w
    let data := 0
    let size := 0
    ((data, size), w1)
  else
    ((data, size), w)

end posix

/-- A process that holds no descriptor and no mapping. -/
def Posix.init : Posix := { fds := [], maps := [], unmaps := [], errno := 0 }

/-! ## The Windows environment -/

/-- Resources of the process as the Windows backend sees them. -/
structure Win64 where
  /-- open handles (file handles and file-mapping handles) -/
  handles : List Nat
  /-- base addresses of the mapped views -/
  views : List Nat
  /-- every `UnmapViewOfFile(address)` call issued so far, oldest first -/
  unmaps : List Nat
  /-- the value `GetLastError()` returns -/
  last_err : Nat
deriving DecidableEq, Repr

/-- What the system answers during one run of `make_mapping`.
`Except.error e` is the failure value of the call (`INVALID_HANDLE_VALUE`,
`FALSE`, `nullptr`) with the last-error code set to `e`. -/
structure Win64Results where
  createFile_r : Except Nat Nat
  getFileSizeEx_r : Except Nat Int
  createFileMapping_r : Except Nat Nat
  /-- `CloseHandle(hfile)`; `none`: returns `TRUE`; `some e`: returns `FALSE` -/
  closeFile_r : Option Nat
  mapViewOfFile_r : Except Nat Nat
  /-- `CloseHandle(hmap)`; `none`: returns `TRUE`; `some e`: returns `FALSE` -/
  closeMap_r : Option Nat
  /-- the text `FormatMessageA` produces for an error code -/
  formatMessage : Nat → String

/-- The call `::CreateFileA(...)`: `none` stands for `INVALID_HANDLE_VALUE`. -/
def sys_CreateFileA (r : Win64Results) (w : Win64) : Option Nat × Win64 :=
  match r.createFile_r with
  | .error e => (none, { w with last_err := e })
  | .ok h => (some h, { w with handles := h :: w.handles })

/-- The call `::GetFileSizeEx(hfile, &size_value)`: `none` stands for `FALSE`,
`some n` for success with `size_value.QuadPart = n`. -/
def sys_GetFileSizeEx (r : Win64Results) (w : Win64) : Option Int × Win64 :=
  match r.getFileSizeEx_r with
  | .error e => (none, { w with last_err := e })
  | .ok n => (some n, w)

/-- The call `::CreateFileMapping(hfile, ...)`: `none` stands for `nullptr`. -/
def sys_CreateFileMapping (r : Win64Results) (w : Win64) : Option Nat × Win64 :=
  match r.createFileMapping_r with
  | .error e => (none, { w with last_err := e })
  | .ok h => (some h, { w with handles := h :: w.handles })

/-- The call `::MapViewOfFile(hmap, ...)`: `none` stands for `nullptr`. -/
def sys_MapViewOfFile (r : Win64Results) (w : Win64) : Option Nat × Win64 :=
  match r.mapViewOfFile_r with
  | .error e => (none, { w with last_err := e })
  | .ok p => (some p, { w with views := p :: w.views })

/-- The call `::CloseHandle(h)` with the given answer: on `TRUE` the handle is
released, on `FALSE` it is left as it was and the last-error code is set. -/
def sys_CloseHandle (h : Nat) (answer : Option Nat) (w : Win64) : Bool × Win64 :=
  match answer with
  | none => (true, { w with handles := w.handles.erase h })
  | some e => (false, { w with last_err := e })

/-- The call `::UnmapViewOfFile(data)`. -/
def sys_UnmapViewOfFile (data : Nat) (w : Win64) : Win64 :=
  { w with views := w.views.filter (fun v => decide (v ≠ data)),
           unmaps := w.unmaps ++ [data] }

/-- The exception `std::runtime_error(message)`. -/
structure runtime_error where
  what : String
deriving DecidableEq, Repr

/-- The character `"` of the messages. -/
def dquote : String := String.singleton (Char.ofNat 34)

namespace win64

/-- `last_error` of the Windows backend (`memory_mapping.cpp`, lines 70-85). -/
def last_error (r : Win64Results) (w : Win64) : String :=
  let errorMessageID := w.last_err
  if errorMessageID = 0 then "" else r.formatMessage errorMessageID

/-- `make_mapping` of the Windows backend (`memory_mapping.cpp`, lines 87-125). -/
def make_mapping (path : String) (r : Win64Results) (w : Win64) :
    Except runtime_error (Nat × Nat) × Win64 :=
  match sys_CreateFileA r w with
  | (none, w1) =>
    (.error ⟨"error opening " ++ dquote ++ path ++ dquote ++ ": " ++ last_error r w1⟩, w1)
  | (some hfile, w1) =>
    match sys_GetFileSizeEx r w1 with
    | (none, w2) =>
      (.error ⟨"cannot obtain size of " ++ dquote ++ path ++ dquote ++ ": "
        ++ last_error r w2⟩, w2)
    | (some size, w2) =>
      match sys_CreateFileMapping r w2 with
      | (hmap, w3) =>
        match sys_CloseHandle hfile r.closeFile_r w3 with
        | (closed, w4) =>
          match closed, hmap with
          | true, some hmap =>
            match sys_MapViewOfFile r w4 with
            | (data, w5) =>
              match sys_CloseHandle hmap r.closeMap_r w5 with
              | (closed2, w6) =>
                match closed2, data with
                | true, some data => (.ok (data, size_t_of size), w6)
                | _, _ =>
                  (.error ⟨"error finalizing creation of file mapping of " ++ dquote
                    ++ path ++ dquote ++ ": " ++ last_error r w6⟩, w6)
          | _, _ =>
            (.error ⟨"error creating file mapping of " ++ dquote ++ path ++ dquote
              ++ ": " ++ last_error r w4⟩, w4)

/-- `clear_mapping` of the Windows backend (`memory_mapping.cpp`, lines 127-134). -/
def clear_mapping (data size : Nat) (w : Win64) : (Nat × Nat) × Win64 :=
  if data ≠ 0 then
    let w1 := sys_UnmapViewOfFile data w
    let data := 0
    let size := 0
    ((data, size), w1)
  else
    ((data, size), w)

end win64

/-- A process that holds no handle and no view. -/
def Win64.init : Win64 := { handles := [], views := [], unmaps := [], last_err := 0 }

/-! ## The class `MemoryMapping` (POSIX build) -/

/-- The data members of `nzl::MemoryMapping`, with their default initialisers. -/
structure MemoryMapping where
  m_data : Nat := 0
  m_size : Nat := 0
deriving DecidableEq, Repr

namespace MemoryMapping

/-- `MemoryMapping::MemoryMapping(const std::string& path)`: an exception of
`make_mapping` leaves no object. -/
def ctor (path : String) (r : PosixResults) (w : Posix) :
    Except system_error MemoryMapping × Posix :=
  match posix.make_mapping path r w with
  | (.error e, w1) => (.error e, w1)
  | (.ok (d, s), w1) => (.ok { m_data := d, m_size := s }, w1)

/-- `MemoryMapping::MemoryMapping(MemoryMapping&& other)`: the new object and
`other` afterwards. -/
def move_ctor (other : MemoryMapping) : MemoryMapping × MemoryMapping :=
  let this : MemoryMapping := { m_data := other.m_data, m_size := other.m_size }
  let other := { other with m_data := 0 }
  let other := { other with m_size := 0 }
  (this, other)

/-- `MemoryMapping::operator=(MemoryMapping&& other)` on two distinct objects:
`*this` and `other` afterwards. -/
def move_assign (this other : MemoryMapping) : MemoryMapping × MemoryMapping :=
  let this := { this with m_data := other.m_data }
  let this := { this with m_size := other.m_size }
  let other := { other with m_data := 0 }
  let other := { other with m_size := 0 }
  (this, other)

/-- `MemoryMapping::~MemoryMapping()`: the members after the body, and the
process afterwards. -/
def dtor (this : MemoryMapping) (w : Posix) : MemoryMapping × Posix :=
  match posix.clear_mapping this.m_data this.m_size w with
  | ((d, s), w1) => ({ m_data := d, m_size := s }, w1)

/-- `MemoryMapping::data()`. -/
def data (this : MemoryMapping) : Nat := this.m_data

/-- `MemoryMapping::size()`. -/
def size (this : MemoryMapping) : Nat := this.m_size

/-- `MemoryMapping::cbegin()`. -/
def cbegin (this : MemoryMapping) : Nat := this.m_data

/-- `MemoryMapping::cend()`, that is `std::next(cbegin(), size())`. Pointer
arithmetic is exact: it stays inside the mapped object, or is `nullptr + 0`. -/
def cend (this : MemoryMapping) : Nat := this.cbegin + this.size

/-- `MemoryMapping::begin()`. -/
def begin (this : MemoryMapping) : Nat := this.cbegin

/-- `MemoryMapping::end()`. -/
def end_ (this : MemoryMapping) : Nat := this.cend

/-- `MemoryMapping::swap(MemoryMapping& other)` on two distinct objects: `*this`
and `other` afterwards. -/
def swap (this other : MemoryMapping) : MemoryMapping × MemoryMapping :=
  let (this, other) :=
    ({ this with m_data := other.m_data }, { other with m_data := this.m_data })
  let (this, other) :=
    ({ this with m_size := other.m_size }, { other with m_size := this.m_size })
  (this, other)

end MemoryMapping

/-! ## Programs over several `MemoryMapping` objects -/

/-- A process with its `MemoryMapping` variables: `objs x` is the object of the
variable `x` while it is alive, `none` before its construction and after its
destruction. -/
structure Machine where
  objs : Nat → Option MemoryMapping
  os : Posix

/-- The statements of a program that manipulates `MemoryMapping` variables. -/
inductive Op where
  /-- `MemoryMapping x{path};` with the answers of the kernel to that run -/
  | construct (x : Nat) (path : String) (r : PosixResults)
  /-- `MemoryMapping x{std::move(y)};` -/
  | move_construct (x y : Nat)
  /-- `x = std::move(y);` -/
  | move_assign (x y : Nat)
  /-- `x.swap(y);` or `swap(x, y);` -/
  | swap (x y : Nat)
  /-- the end of the lifetime of `x` -/
  | destroy (x : Nat)
  /-- `x.~MemoryMapping();` on a variable that stays in scope: a release ahead of
  the destruction -/
  | destructor_call (x : Nat)

/-- The store with the variable `x` bound to `v`. -/
def Machine.set (m : Machine) (x : Nat) (v : Option MemoryMapping) : Machine :=
  { m with objs := fun i => if i = x then v else m.objs i }

/-- The machine with no variable alive and no resource held. -/
def Machine.init : Machine := { objs := fun _ => none, os := Posix.init }

/-- One statement. A statement that names a variable that is not alive, or
declares one that is, is not a program step and leaves the machine as it is.
When `x` and `y` are the same variable the writes to `other` come last, as in
the member functions. After `destructor_call x` the variable keeps the members
the destructor wrote, and the destructor runs on them again when `x` is
destroyed. -/
def step (m : Machine) : Op → Machine
  | .construct x path r =>
    match m.objs x with
    | some _ => m
    | none =>
      match MemoryMapping.ctor path r m.os with
      | (.error _, w) => { m with os := w }
      | (.ok v, w) => ({ m with os := w }).set x (some v)
  | .move_construct x y =>
    match m.objs x, m.objs y with
    | none, some b =>
      match MemoryMapping.move_ctor b with
      | (a1, b1) => (m.set x (some a1)).set y (some b1)
    | _, _ => m
  | .move_assign x y =>
    match m.objs x, m.objs y with
    | some a, some b =>
      match MemoryMapping.move_assign a b with
      | (a1, b1) => (m.set x (some a1)).set y (some b1)
    | _, _ => m
  | .swap x y =>
    match m.objs x, m.objs y with
    | some a, some b =>
      match MemoryMapping.swap a b with
      | (a1, b1) => (m.set x (some a1)).set y (some b1)
    | _, _ => m
  | .destroy x =>
    match m.objs x with
    | some a =>
      match MemoryMapping.dtor a m.os with
      | (_, w) => ({ m with os := w }).set x none
    | none => m
  | .destructor_call x =>
    match m.objs x with
    | some a =>
      match MemoryMapping.dtor a m.os with
      | (a1, w) => ({ m with os := w }).set x (some a1)
    | none => m

/-- A sequence of statements. -/
def run (m : Machine) (ops : List Op) : Machine := ops.foldl step m

/-- The base addresses of the regions that are mapped. -/
def mapped_bases (m : Machine) : List Nat := m.os.maps.map Prod.fst

/-- The kernel returns a fresh address range to the statement: when the
statement calls `mmap` and the call succeeds, the address it returns is not the
base of a region that is mapped at that moment. -/
def fresh_step (m : Machine) : Op → Bool
  | .construct x _ r =>
    match m.objs x, r.open_r, r.fstat_r, r.mmap_r with
    | none, .ok _, .ok _, .ok p => !(mapped_bases m).contains p
    | _, _, _, _ => true
  | _ => true

/-- The kernel returns a fresh address range to every statement of the program. -/
def fresh_run : Machine → List Op → Bool
  | _, [] => true
  | m, op :: ops => fresh_step m op && fresh_run (step m op) ops

/-- The `munmap` calls the statement `op` issues from the machine `m`: what it
adds to the log of the process. -/
def munmap_calls (m : Machine) (op : Op) : List (Nat × Nat) :=
  (step m op).os.unmaps.drop m.os.unmaps.length

/-- Invariant I2 on a machine: two different live variables never hold the same
non-null base address. -/
def Exclusive (m : Machine) : Prop :=
  ∀ x y a b, m.objs x = some a → m.objs y = some b → x ≠ y →
    a.m_data ≠ 0 → a.m_data ≠ b.m_data

/-- Invariant I1 on an object. -/
def I1 (a : MemoryMapping) : Prop := a.m_data = 0 ↔ a.m_size = 0

/-! ## The test driver (`memory_mapping.t.cpp`) -/

/-- The value of a byte read as a `char` (signed, 8 bits); the line feed is the
`char` 10. -/
def char_of (b : UInt8) : Int := if b.toNat < 128 then b.toNat else b.toNat - 256

/-- The loop of `using_file` over the characters the stream still holds. -/
def using_file_loop : List UInt8 → Nat → Nat
  | [], n => n
  | c :: rest, n => using_file_loop rest (if char_of c = 10 then n + 1 else n)

/-- `using_file` on a file with the given content: the count it prints. -/
def using_file (content : List UInt8) : Nat := using_file_loop content 0

/-- The range-based loop of `using_mapping`: `it` runs from `begin()` until it
equals `last`; `none` when the fuel runs out. -/
def using_mapping_loop (mem : Nat → UInt8) (last : Nat) : Nat → Nat → Nat → Option Nat
  | 0, it, n => if it ≠ last then none else some n
  | fuel + 1, it, n =>
    if it ≠ last then
      using_mapping_loop mem last fuel (it + 1) (if mem it = 10 then n + 1 else n)
    else some n

/-- `using_mapping`: construct the mapping, count, destroy the mapping. The
result is the count printed, or the exception of the constructor; `none` when
the fuel runs out. `mem` is the memory of the process. -/
def using_mapping (fuel : Nat) (path : String) (r : PosixResults) (mem : Nat → UInt8)
    (w : Posix) : Option (Except system_error Nat × Posix) :=
  match MemoryMapping.ctor path r w with
  | (.error e, w1) => some (.error e, w1)
  | (.ok mm, w1) =>
    match using_mapping_loop mem mm.end_ fuel mm.begin 0 with
    | none => none
    | some n => some (.ok n, (mm.dtor w1).2)

/-- The mapped range of `mm` holds `content`, in order. -/
def Holds (mem : Nat → UInt8) (mm : MemoryMapping) (content : List UInt8) : Prop :=
  mm.m_size = content.length ∧ ∀ i, i < content.length → content[i]? = some (mem (mm.m_data + i))

/-- The invariant of the machine: ownership is exclusive, the mapped regions
have pairwise distinct bases, and the region of every non-null base a variable
holds is mapped, with the length the variable holds. -/
def Inv (m : Machine) : Prop :=
  Exclusive m ∧ (mapped_bases m).Nodup ∧
    ∀ x a, m.objs x = some a → a.m_data ≠ 0 → (a.m_data, a.m_size) ∈ m.os.maps

/-- Kernel answers: `open` gives descriptor `fd`, `fstat` reports `size`, `mmap`
gives the address `p`, `close` succeeds. -/
def all_succeed (fd : Nat) (size : Int) (p : Nat) : PosixResults :=
  { open_r := .ok fd, fstat_r := .ok size, mmap_r := .ok p, close_r := none }

/-- Two variables: `0` maps `b.txt` (8 bytes at 4096), `1` maps `a.txt` (4 bytes at
8192); then `0` is move-assigned from `1`, and both are destroyed. -/
def reassign_program : List Op :=
  [.construct 0 "b.txt" (all_succeed 3 8 4096),
   .construct 1 "a.txt" (all_succeed 3 4 8192),
   .move_assign 0 1,
   .destroy 1,
   .destroy 0]

/-- The pattern of the test driver with a recycled address: a file is mapped at
4096 and the variable destroyed, then a second file is mapped at 4096 again; its
variable is released by a destructor call, moved from, and destroyed. -/
def recycle_program : List Op :=
  [.construct 0 "a.txt" (all_succeed 3 8 4096),
   .destroy 0,
   .construct 1 "b.txt" (all_succeed 3 4 4096),
   .destructor_call 1,
   .move_construct 2 1,
   .destroy 1,
   .destroy 2]

/-- System answers where `CreateFileA` gives the handle 7 and `GetFileSizeEx`
fails with code 5. -/
def size_query_fails : Win64Results :=
  { createFile_r := .ok 7, getFileSizeEx_r := .error 5, createFileMapping_r := .ok 8,
    closeFile_r := none, mapViewOfFile_r := .ok 4096, closeMap_r := none,
    formatMessage := fun _ => "Access is denied." }

/-- The bytes of `"abc\ndef\n"`. -/
def abc_def : List UInt8 := [97, 98, 99, 10, 100, 101, 102, 10]

/-- A memory that holds `abc_def` from address 4096 on. -/
def abc_def_mem (a : Nat) : UInt8 := abc_def.getD (a - 4096) 0

/-! ## Theorems -/

/-- C3. POSIX `make_mapping` is all-or-nothing, for every outcome of `open`,
`fstat`, `mmap` (and `close`) and from every state of the process: the set of open
descriptors is afterwards what it was before the call (the descriptor of step 1,
if any, is closed) and no `munmap` is issued; when the three calls succeed the
result is the pair (address, size) and exactly that one region is added to the
mapped regions; in every other case an error is raised and the mapped regions are
what they were. -/
theorem C3_posix_make_mapping_all_or_nothing (path : String) (r : PosixResults) (w : Posix) :
    (posix.make_mapping path r w).2.fds = w.fds ∧
    (posix.make_mapping path r w).2.unmaps = w.unmaps ∧
    match r.open_r, r.fstat_r, r.mmap_r with
    | .ok _, .ok n, .ok p =>
      (posix.make_mapping path r w).1 = .ok (p, size_t_of n) ∧
      (posix.make_mapping path r w).2.maps = (p, size_t_of n) :: w.maps
    | _, _, _ =>
      (∃ e, (posix.make_mapping path r w).1 = .error e) ∧
      (posix.make_mapping path r w).2.maps = w.maps := by
  rcases r with ⟨o, f, mm, c⟩
  cases o <;> cases f <;> cases mm <;> cases c <;>
    simp [posix.make_mapping, sys_open, sys_fstat, sys_mmap, sys_close]

/-- C6. Release is idempotent: on an owned mapping (non-null base) or on the
null/zero sentinel, `clear_mapping` returns the sentinel; on a non-null base it
issues exactly one `munmap(base, length)` and nothing else; on the sentinel it
issues no call and returns its input; applied to its own result it changes
nothing; the destructor stores exactly this result in the members. -/
theorem C6_clear_mapping_idempotent (data size : Nat) (w : Posix)
    (h : data ≠ 0 ∨ (data = 0 ∧ size = 0)) :
    (posix.clear_mapping data size w).1 = (0, 0) ∧
    (data ≠ 0 → (posix.clear_mapping data size w).2 = sys_munmap data size w ∧
      (posix.clear_mapping data size w).2.unmaps = w.unmaps ++ [(data, size)]) ∧
    (data = 0 → posix.clear_mapping data size w = ((data, size), w)) ∧
    posix.clear_mapping (posix.clear_mapping data size w).1.1
        (posix.clear_mapping data size w).1.2 (posix.clear_mapping data size w).2
      = posix.clear_mapping data size w ∧
    MemoryMapping.dtor ⟨data, size⟩ w = (⟨0, 0⟩, (posix.clear_mapping data size w).2) := by
  rcases h with h | ⟨h, h0⟩
  · simp [posix.clear_mapping, MemoryMapping.dtor, h, sys_munmap]
  · subst h; subst h0
    simp [posix.clear_mapping, MemoryMapping.dtor]

/-- Witness of C6 on the mapping of 8 bytes at 4096. -/
theorem C6_clear_mapping_idempotent_witness :
    (posix.clear_mapping 4096 8 Posix.init).1 = (0, 0) ∧
    ((4096 : Nat) ≠ 0 → (posix.clear_mapping 4096 8 Posix.init).2 = sys_munmap 4096 8 Posix.init ∧
      (posix.clear_mapping 4096 8 Posix.init).2.unmaps = Posix.init.unmaps ++ [(4096, 8)]) ∧
    ((4096 : Nat) = 0 → posix.clear_mapping 4096 8 Posix.init = ((4096, 8), Posix.init)) ∧
    posix.clear_mapping (posix.clear_mapping 4096 8 Posix.init).1.1
        (posix.clear_mapping 4096 8 Posix.init).1.2 (posix.clear_mapping 4096 8 Posix.init).2
      = posix.clear_mapping 4096 8 Posix.init ∧
    MemoryMapping.dtor ⟨4096, 8⟩ Posix.init = (⟨0, 0⟩, (posix.clear_mapping 4096 8 Posix.init).2) :=
  C6_clear_mapping_idempotent 4096 8 Posix.init (Or.inl (by decide))

/-- C10. In every state of the members, `begin() == cbegin() == data()`,
`end() == cend() == data() + size()`, and `end() - begin() == size()`. -/
theorem C10_byte_range (a : MemoryMapping) :
    a.begin = a.cbegin ∧ a.cbegin = a.data ∧
    a.end_ = a.cend ∧ a.cend = a.data + a.size ∧
    a.end_ - a.begin = a.size := by
  simp [MemoryMapping.begin, MemoryMapping.end_, MemoryMapping.cbegin, MemoryMapping.cend,
    MemoryMapping.data, MemoryMapping.size]

/-- C1 (the code at the failing input). After `MemoryMapping x{"b.txt"}` and
`MemoryMapping y{"a.txt"}`, the assignment `x = std::move(y)` issues no `munmap`:
the region at 4096 that `x` held stays mapped although no variable holds its
address any more, and it is still mapped after both variables are destroyed. -/
theorem C1_move_assign_keeps_old_region_mapped :
    (run Machine.init (reassign_program.take 2)).objs 0 = some ⟨4096, 8⟩ ∧
    (run Machine.init (reassign_program.take 2)).objs 1 = some ⟨8192, 4⟩ ∧
    (run Machine.init (reassign_program.take 2)).os.maps = [(8192, 4), (4096, 8)] ∧
    (run Machine.init (reassign_program.take 3)).objs 0 = some ⟨8192, 4⟩ ∧
    (run Machine.init (reassign_program.take 3)).objs 1 = some ⟨0, 0⟩ ∧
    (run Machine.init (reassign_program.take 3)).os.maps = [(8192, 4), (4096, 8)] ∧
    (run Machine.init (reassign_program.take 3)).os.unmaps = [] ∧
    (run Machine.init reassign_program).objs 0 = none ∧
    (run Machine.init reassign_program).objs 1 = none ∧
    (run Machine.init reassign_program).os.unmaps = [(8192, 4)] ∧
    (run Machine.init reassign_program).os.maps = [(4096, 8)] := by
  refine ⟨rfl, rfl, rfl, rfl, rfl, rfl, rfl, rfl, rfl, rfl, rfl⟩

/-- C4 (the code at the failing input). When `CreateFileA` succeeds with the
handle 7 and `GetFileSizeEx` fails, Windows `make_mapping` raises the error
"cannot obtain size of ..." and the file handle 7 is still open. -/
theorem C4_size_query_failure_leaves_file_handle_open :
    win64.make_mapping "f.txt" size_query_fails Win64.init =
      (.error ⟨"cannot obtain size of " ++ dquote ++ "f.txt" ++ dquote ++ ": Access is denied."⟩,
       { handles := [7], views := [], unmaps := [], last_err := 5 }) := by
  rfl

/-- C5. Let `y` be a live variable with members `A` and `x` a different variable.
Transferring from `y` to `x`, by `MemoryMapping x{std::move(y)}` (`x` not yet
alive) or by `x = std::move(y)` (`x` alive), leaves `y` with `data() == nullptr`
and `size() == 0` (so I1 holds of `y`) and `x` with `data()` and `size()` those
of `A`; destroying `y` afterwards issues no system call at all (the process is
unchanged) and leaves `x` as it is. The same holds of the member functions
themselves. -/
theorem C5_ownership_transfer (m : Machine) (x y : Nat) (A : MemoryMapping) (op : Op)
    (hxy : x ≠ y) (hy : m.objs y = some A)
    (hop : (op = .move_construct x y ∧ m.objs x = none) ∨
           (op = .move_assign x y ∧ ∃ B, m.objs x = some B)) :
    (∃ a1, (step m op).objs y = some a1 ∧ a1.data = 0 ∧ a1.size = 0 ∧ I1 a1) ∧
    (∃ b1, (step m op).objs x = some b1 ∧ b1.data = A.data ∧ b1.size = A.size) ∧
    (step m op).os = m.os ∧
    (step (step m op) (.destroy y)).os = (step m op).os ∧
    (step (step m op) (.destroy y)).objs x = (step m op).objs x ∧
    (step (step m op) (.destroy y)).objs y = none ∧
    (MemoryMapping.move_ctor A) = (A, ⟨0, 0⟩) ∧
    (∀ B w, MemoryMapping.move_assign B A = (A, ⟨0, 0⟩) ∧
      MemoryMapping.dtor (MemoryMapping.move_assign B A).2 w = (⟨0, 0⟩, w)) := by
  have hyx : y ≠ x := fun h => hxy h.symm
  have hpure : (MemoryMapping.move_ctor A) = (A, ⟨0, 0⟩) ∧
      (∀ B w, MemoryMapping.move_assign B A = (A, ⟨0, 0⟩) ∧
        MemoryMapping.dtor (MemoryMapping.move_assign B A).2 w = (⟨0, 0⟩, w)) := by
    refine ⟨rfl, fun B w => ⟨rfl, ?_⟩⟩
    simp [MemoryMapping.move_assign, MemoryMapping.dtor, posix.clear_mapping]
  rcases hop with ⟨rfl, hx⟩ | ⟨rfl, B, hx⟩
  · refine ⟨?_, ?_, ?_, ?_, ?_, ?_, hpure.1, hpure.2⟩ <;>
      simp [step, hx, hy, Machine.set, hxy, hyx, MemoryMapping.move_ctor, MemoryMapping.dtor,
        posix.clear_mapping, MemoryMapping.data, MemoryMapping.size, I1]
  · refine ⟨?_, ?_, ?_, ?_, ?_, ?_, hpure.1, hpure.2⟩ <;>
      simp [step, hx, hy, Machine.set, hxy, hyx, MemoryMapping.move_assign, MemoryMapping.dtor,
        posix.clear_mapping, MemoryMapping.data, MemoryMapping.size, I1]

/-- Witness of C5: the assignment `x = std::move(y)` of `reassign_program`, with
`x` the variable 0 and `y` the variable 1. -/
theorem C5_ownership_transfer_witness :
    (∃ a1, (step (run Machine.init (reassign_program.take 2)) (.move_assign 0 1)).objs 1 = some a1 ∧
      a1.data = 0 ∧ a1.size = 0 ∧ I1 a1) ∧
    (∃ b1, (step (run Machine.init (reassign_program.take 2)) (.move_assign 0 1)).objs 0 = some b1 ∧
      b1.data = (⟨8192, 4⟩ : MemoryMapping).data ∧ b1.size = (⟨8192, 4⟩ : MemoryMapping).size) :=
  have h := C5_ownership_transfer (run Machine.init (reassign_program.take 2)) 0 1 ⟨8192, 4⟩
    (.move_assign 0 1) (by decide) rfl (Or.inr ⟨rfl, ⟨4096, 8⟩, rfl⟩)
  ⟨h.1, h.2.1⟩

/-- A byte read as a `char` equals the line feed exactly when the byte is 10. -/
theorem char_of_eq_newline (c : UInt8) : char_of c = 10 ↔ c = 10 := by
  unfold char_of
  have hlt : c.toNat < 256 := c.val.isLt
  constructor
  · intro h
    split at h
    · have : c.toNat = 10 := by omega
      apply UInt8.ext
      rw [this]
      rfl
    · omega
  · rintro rfl
    decide

/-- With fuel for every byte, the loop over the range `[it, it + length)` of a
memory that holds `cs` there counts what the loop over the stream counts. -/
theorem using_mapping_loop_eq (mem : Nat → UInt8) :
    ∀ (cs : List UInt8) (it n fuel : Nat), cs.length ≤ fuel →
      (∀ i, i < cs.length → cs[i]? = some (mem (it + i))) →
      using_mapping_loop mem (it + cs.length) fuel it n = some (using_file_loop cs n) := by
  intro cs
  induction cs with
  | nil =>
    intro it n fuel _ _
    cases fuel <;> simp [using_mapping_loop, using_file_loop]
  | cons c cs ih =>
    intro it n fuel hf hmem
    cases fuel with
    | zero => simp at hf
    | succ fuel =>
      have h0 : mem it = c := by
        have := hmem 0 (by simp)
        simpa using this.symm
      have hrest : ∀ i, i < cs.length → cs[i]? = some (mem (it + 1 + i)) := by
        intro i hi
        have := hmem (i + 1) (by simpa using hi)
        simpa [Nat.add_assoc, Nat.add_comm 1 i] using this
      have hlast : it + (c :: cs).length = it + 1 + cs.length := by
        simp [Nat.add_assoc, Nat.add_comm 1]
      have hne : it ≠ it + 1 + cs.length := by omega
      rw [hlast]
      simp only [using_mapping_loop, using_file_loop, ne_eq, hne, not_false_eq_true, if_true, h0]
      rw [ih (it + 1) _ fuel (by simpa using hf) hrest]
      simp only [char_of_eq_newline]

/-- C9. If the constructor succeeds on the file and the mapped range holds the
content of the file in order, then `using_mapping`, given fuel for every byte,
terminates and counts exactly the line feeds `using_file` counts on that
content. For the content `"abc\ndef\n"` the mapping has size 8 and both counts
are 2. -/
theorem C9_counts_agree (content : List UInt8) (path : String) (r : PosixResults)
    (mem : Nat → UInt8) (w : Posix) (mm : MemoryMapping) (fuel : Nat)
    (hc : (MemoryMapping.ctor path r w).1 = .ok mm) (hh : Holds mem mm content)
    (hf : content.length ≤ fuel) :
    (∃ w1, using_mapping fuel path r mem w = some (.ok (using_file content), w1)) ∧
    ((MemoryMapping.ctor "f.txt" (all_succeed 3 8 4096) Posix.init).1 = .ok ⟨4096, 8⟩ ∧
      (⟨4096, 8⟩ : MemoryMapping).size = 8 ∧
      using_file abc_def = 2 ∧
      (using_mapping 8 "f.txt" (all_succeed 3 8 4096) abc_def_mem Posix.init).map Prod.fst
        = some (.ok 2)) := by
  refine ⟨?_, rfl, rfl, by decide, rfl⟩
  obtain ⟨hsize, hmem⟩ := hh
  have hloop := using_mapping_loop_eq mem content mm.m_data 0 fuel hf hmem
  unfold using_mapping
  split
  · rename_i e w1 heq
    rw [heq] at hc
    simp at hc
  · rename_i v w1 heq
    rw [heq] at hc
    simp only [Except.ok.injEq] at hc
    subst hc
    simp only [MemoryMapping.end_, MemoryMapping.cend, MemoryMapping.begin,
      MemoryMapping.cbegin, MemoryMapping.size, hsize, hloop, using_file]
    exact ⟨_, rfl⟩

/-- The memory `abc_def_mem` holds `abc_def` in the range of the mapping at 4096. -/
theorem abc_def_holds : Holds abc_def_mem ⟨4096, 8⟩ abc_def := by
  refine ⟨rfl, ?_⟩
  intro i hi
  have hi8 : i < 8 := hi
  interval_cases i <;> rfl

/-- Witness of C9 on the file `"abc\ndef\n"`. -/
theorem C9_counts_agree_witness :
    ∃ w1, using_mapping 8 "f.txt" (all_succeed 3 8 4096) abc_def_mem Posix.init
      = some (.ok (using_file abc_def), w1) :=
  (C9_counts_agree abc_def "f.txt" (all_succeed 3 8 4096) abc_def_mem Posix.init ⟨4096, 8⟩ 8
    rfl abc_def_holds (by decide)).1
/-- The constructor issues no `munmap`; it fails and leaves the mapped regions as
they were, or the three calls succeeded, the object holds the address of `mmap`
and the size of `fstat`, and exactly that region is added. -/
theorem ctor_cases (path : String) (r : PosixResults) (w : Posix) :
    (MemoryMapping.ctor path r w).2.unmaps = w.unmaps ∧
    ((∃ e, (MemoryMapping.ctor path r w).1 = .error e ∧
        (MemoryMapping.ctor path r w).2.maps = w.maps) ∨
     (∃ fd n p, r.open_r = .ok fd ∧ r.fstat_r = .ok n ∧ r.mmap_r = .ok p ∧
        (MemoryMapping.ctor path r w).1 = .ok ⟨p, size_t_of n⟩ ∧
        (MemoryMapping.ctor path r w).2.maps = (p, size_t_of n) :: w.maps)) := by
  rcases r with ⟨o, f, mm, c⟩
  rcases o with e | fd <;> rcases f with e | n <;> rcases mm with e | p <;> cases c <;>
    simp [MemoryMapping.ctor, posix.make_mapping, sys_open, sys_fstat, sys_mmap, sys_close]

/-- The destructor on a non-null base: one `munmap` of the region, and null
members. -/
theorem dtor_nonnull (a : MemoryMapping) (w : Posix) (h : a.m_data ≠ 0) :
    MemoryMapping.dtor a w = (⟨0, 0⟩, sys_munmap a.m_data a.m_size w) := by
  simp [MemoryMapping.dtor, posix.clear_mapping, h]

/-- The destructor on a null base: no call, members unchanged. -/
theorem dtor_null (a : MemoryMapping) (w : Posix) (h : a.m_data = 0) :
    MemoryMapping.dtor a w = (a, w) := by
  rcases a with ⟨d, n⟩
  simp only at h
  subst h
  simp [MemoryMapping.dtor, posix.clear_mapping]

/-- Exclusivity is kept when every non-null base of the new store comes from a
variable of the old store, different variables from different ones. -/
theorem exclusive_of_inj (m m1 : Machine) (f : Nat → Nat) (hex : Exclusive m)
    (hf : ∀ i a, m1.objs i = some a → a.m_data ≠ 0 →
      ∃ a0, m.objs (f i) = some a0 ∧ a0.m_data = a.m_data ∧ a0.m_size = a.m_size)
    (hinj : ∀ i j a b, m1.objs i = some a → m1.objs j = some b → a.m_data ≠ 0 →
      b.m_data ≠ 0 → f i = f j → i = j) : Exclusive m1 := by
  intro i j a b hi hj hij hne heq
  have hnb : b.m_data ≠ 0 := heq ▸ hne
  obtain ⟨a0, ha0, hda, _⟩ := hf i a hi hne
  obtain ⟨b0, hb0, hdb, _⟩ := hf j b hj hnb
  have hfij : f i ≠ f j := fun h => hij (hinj i j a b hi hj hne hnb h)
  exact hex (f i) (f j) a0 b0 ha0 hb0 hfij (hda ▸ hne) (by rw [hda, hdb, heq])

/-- A statement that maps and unmaps nothing and only moves the non-null bases,
with their lengths, between variables keeps the invariant. -/
theorem inv_of_inj (m m1 : Machine) (f : Nat → Nat) (hinv : Inv m)
    (hos : m1.os.maps = m.os.maps)
    (hf : ∀ i a, m1.objs i = some a → a.m_data ≠ 0 →
      ∃ a0, m.objs (f i) = some a0 ∧ a0.m_data = a.m_data ∧ a0.m_size = a.m_size)
    (hinj : ∀ i j a b, m1.objs i = some a → m1.objs j = some b → a.m_data ≠ 0 →
      b.m_data ≠ 0 → f i = f j → i = j) :
    Inv m1 := by
  obtain ⟨hex, hnd, hreg⟩ := hinv
  have hb : mapped_bases m1 = mapped_bases m := by simp [mapped_bases, hos]
  refine ⟨exclusive_of_inj m m1 f hex hf hinj, hb ▸ hnd, ?_⟩
  intro x a hx hne
  obtain ⟨a0, ha0, hda, hsa⟩ := hf x a hx hne
  rw [hos, ← hda, ← hsa]
  exact hreg (f x) a0 ha0 (hda ▸ hne)

/-- A statement that leaves the log of the process as it is issues no `munmap`. -/
theorem munmap_calls_nil (m : Machine) (op : Op) (h : (step m op).os.unmaps = m.os.unmaps) :
    munmap_calls m op = [] := by
  simp [munmap_calls, h]

/-- Running the destructor on the variable `x`, and leaving in the store either
nothing or null members, keeps the invariant; the `munmap` it issues, if any,
is on a region that is mapped, and that region is no longer mapped afterwards. -/
theorem release_inv (m : Machine) (x : Nat) (a : MemoryMapping) (v : Option MemoryMapping)
    (hx : m.objs x = some a) (hv : ∀ c, v = some c → c.m_data = 0) (hinv : Inv m) :
    Inv (({ m with os := (MemoryMapping.dtor a m.os).2 }).set x v) ∧
    ∀ c ∈ (MemoryMapping.dtor a m.os).2.unmaps.drop m.os.unmaps.length,
      c ∈ m.os.maps ∧
      c.1 ∉ mapped_bases (({ m with os := (MemoryMapping.dtor a m.os).2 }).set x v) := by
  have hobjs : ∀ i c, (({ m with os := (MemoryMapping.dtor a m.os).2 }).set x v).objs i = some c →
      c.m_data ≠ 0 → i ≠ x ∧ m.objs i = some c := by
    intro i c hi hne
    simp only [Machine.set] at hi
    split_ifs at hi with h1
    · exact absurd (hv c hi) hne
    · exact ⟨h1, hi⟩
  by_cases h0 : a.m_data = 0
  · rw [dtor_null a m.os h0]
    rw [dtor_null a m.os h0] at hobjs
    refine ⟨inv_of_inj m _ (fun i => i) hinv rfl ?_ ?_, ?_⟩
    · intro i c hi hne
      exact ⟨c, (hobjs i c hi hne).2, rfl, rfl⟩
    · intro i j _ _ _ _ _ _ hfij
      exact hfij
    · intro c hc
      simp at hc
  · obtain ⟨hex, hnd, hreg⟩ := hinv
    rw [dtor_nonnull a m.os h0]
    rw [dtor_nonnull a m.os h0] at hobjs
    have hmaps : (({ m with os := sys_munmap a.m_data a.m_size m.os }).set x v).os.maps
        = m.os.maps.filter (fun r => decide (r.1 ≠ a.m_data)) := rfl
    have hnot : a.m_data ∉
        mapped_bases (({ m with os := sys_munmap a.m_data a.m_size m.os }).set x v) := by
      simp [mapped_bases, hmaps, List.mem_filter]
    refine ⟨⟨?_, ?_, ?_⟩, ?_⟩
    · intro i j c d hi hj hij hne heq
      have hnd2 : d.m_data ≠ 0 := heq ▸ hne
      exact hex i j c d (hobjs i c hi hne).2 (hobjs j d hj hnd2).2 hij hne heq
    · have hsub : List.Sublist
          (mapped_bases (({ m with os := sys_munmap a.m_data a.m_size m.os }).set x v))
          (mapped_bases m) := by
        simp only [mapped_bases, hmaps]
        exact List.Sublist.map _ (List.filter_sublist _)
      exact List.Nodup.sublist hsub hnd
    · intro i c hi hne
      obtain ⟨hix, hic⟩ := hobjs i c hi hne
      rw [hmaps, List.mem_filter]
      refine ⟨hreg i c hic hne, ?_⟩
      simpa using hex i x c a hic hx hix hne
    · intro c hc
      have hc1 : c = (a.m_data, a.m_size) := by
        simpa [sys_munmap] using hc
      subst hc1
      exact ⟨hreg x a hx h0, hnot⟩

/-- One statement to which the kernel returns a fresh address range keeps the
invariant, and every `munmap` it issues is on a region that is mapped before the
statement and no longer mapped after it. -/
theorem step_inv (m : Machine) (op : Op) (hinv : Inv m) (hfresh : fresh_step m op = true) :
    Inv (step m op) ∧
    ∀ c ∈ munmap_calls m op, c ∈ m.os.maps ∧ c.1 ∉ mapped_bases (step m op) := by
  have hkeep : step m op = m → Inv (step m op) ∧
      ∀ c ∈ munmap_calls m op, c ∈ m.os.maps ∧ c.1 ∉ mapped_bases (step m op) := by
    intro h
    refine ⟨by rw [h]; exact hinv, ?_⟩
    intro c hc
    rw [munmap_calls_nil m op (by rw [h])] at hc
    simp at hc
  have hmove : ∀ m1 : Machine, step m op = m1 → m1.os = m.os → Inv m1 →
      Inv (step m op) ∧
      ∀ c ∈ munmap_calls m op, c ∈ m.os.maps ∧ c.1 ∉ mapped_bases (step m op) := by
    intro m1 h hos hi
    refine ⟨by rw [h]; exact hi, ?_⟩
    intro c hc
    rw [munmap_calls_nil m op (by rw [h, hos])] at hc
    simp at hc
  cases op with
  | construct x path r =>
    cases hx : m.objs x with
    | some a => exact hkeep (by simp [step, hx])
    | none =>
      obtain ⟨hun, hres⟩ := ctor_cases path r m.os
      rcases hc : MemoryMapping.ctor path r m.os with ⟨res, w⟩
      rw [hc] at hun hres
      simp only at hun hres
      obtain ⟨hex, hnd, hreg⟩ := hinv
      rcases hres with ⟨e, rfl, hmaps⟩ | ⟨fd, n, p, ho, hf, hm, rfl, hmaps⟩
      · have hs : step m (.construct x path r) = { m with os := w } := by
          simp [step, hx, hc]
        refine ⟨?_, ?_⟩
        · rw [hs]
          exact inv_of_inj m _ (fun i => i) ⟨hex, hnd, hreg⟩ hmaps
            (fun i c hi _ => ⟨c, hi, rfl, rfl⟩) (fun i j _ _ _ _ _ _ hfij => hfij)
        · intro c hcall
          rw [munmap_calls_nil m _ (by rw [hs]; exact hun)] at hcall
          simp at hcall
      · have hs : step m (.construct x path r)
            = ({ m with os := w }).set x (some ⟨p, size_t_of n⟩) := by
          simp [step, hx, hc]
        have hp : p ∉ mapped_bases m := by
          simpa [fresh_step, hx, ho, hf, hm] using hfresh
        have hheld : ∀ i c, m.objs i = some c → c.m_data ≠ 0 → c.m_data ∈ mapped_bases m := by
          intro i c hi hne
          exact List.mem_map.mpr ⟨(c.m_data, c.m_size), hreg i c hi hne, rfl⟩
        have hobjs : ∀ i c, (({ m with os := w }).set x (some ⟨p, size_t_of n⟩)).objs i = some c →
            (i = x ∧ c = ⟨p, size_t_of n⟩) ∨ (i ≠ x ∧ m.objs i = some c) := by
          intro i c hi
          simp only [Machine.set] at hi
          split_ifs at hi with h1
          · left; exact ⟨h1, by simpa using hi.symm⟩
          · right; exact ⟨h1, hi⟩
        refine ⟨?_, ?_⟩
        · rw [hs]
          refine ⟨?_, ?_, ?_⟩
          · intro i j c d hi hj hij hne heq2
            rcases hobjs i c hi with ⟨rfl, rfl⟩ | ⟨hix, hic⟩
            · rcases hobjs j d hj with ⟨rfl, rfl⟩ | ⟨hjx, hjd⟩
              · exact hij rfl
              · have hdp : d.m_data = p := heq2.symm
                exact hp (hdp ▸ hheld j d hjd (hdp ▸ hne))
            · rcases hobjs j d hj with ⟨rfl, rfl⟩ | ⟨hjx, hjd⟩
              · have hcp : c.m_data = p := heq2
                exact hp (hcp ▸ hheld i c hic hne)
              · exact hex i j c d hic hjd hij hne heq2
          · have hb : mapped_bases (({ m with os := w }).set x (some ⟨p, size_t_of n⟩))
                = p :: mapped_bases m := by
              simp [mapped_bases, Machine.set, hmaps]
            rw [hb]
            exact List.nodup_cons.mpr ⟨hp, hnd⟩
          · intro i c hi hne
            have hm1 : (({ m with os := w }).set x (some ⟨p, size_t_of n⟩)).os.maps
                = (p, size_t_of n) :: m.os.maps := hmaps
            rw [hm1]
            rcases hobjs i c hi with ⟨rfl, rfl⟩ | ⟨hix, hic⟩
            · exact List.mem_cons_self _ _
            · exact List.mem_cons_of_mem _ (hreg i c hic hne)
        · intro c hcall
          rw [munmap_calls_nil m _ (by rw [hs]; exact hun)] at hcall
          simp at hcall
  | move_construct x y =>
    cases hx : m.objs x with
    | some a => exact hkeep (by simp [step, hx])
    | none =>
      cases hy : m.objs y with
      | none => exact hkeep (by simp [step, hx, hy])
      | some b =>
        refine hmove ((m.set x (some (MemoryMapping.move_ctor b).1)).set y
          (some (MemoryMapping.move_ctor b).2)) (by simp [step, hx, hy]) rfl ?_
        refine inv_of_inj m _ (fun i => if i = x then y else i) hinv rfl ?_ ?_
        · intro i a hi hne
          simp only [Machine.set, MemoryMapping.move_ctor] at hi
          split_ifs at hi with h1 h2
          · simp at hi; subst hi; simp at hne
          · simp at hi; subst hi; exact ⟨b, by simp [h2, hy], rfl, rfl⟩
          · exact ⟨a, by simp [h2, hi], rfl, rfl⟩
        · intro i j a c hi hj hna hnc hfij
          simp only [Machine.set, MemoryMapping.move_ctor] at hi hj
          beta_reduce at hfij
          split_ifs at hi hj hfij <;>
            (try simp only [Option.some.injEq] at hi) <;>
            (try simp only [Option.some.injEq] at hj) <;>
            (try subst hi) <;> (try subst hj) <;>
            first
              | omega
              | exact absurd rfl hna
              | exact absurd rfl hnc
  | move_assign x y =>
    cases hx : m.objs x with
    | none => exact hkeep (by simp [step, hx])
    | some a =>
      cases hy : m.objs y with
      | none => exact hkeep (by simp [step, hx, hy])
      | some b =>
        refine hmove ((m.set x (some (MemoryMapping.move_assign a b).1)).set y
          (some (MemoryMapping.move_assign a b).2)) (by simp [step, hx, hy]) rfl ?_
        refine inv_of_inj m _ (fun i => if i = x then y else i) hinv rfl ?_ ?_
        · intro i c hi hne
          simp only [Machine.set, MemoryMapping.move_assign] at hi
          split_ifs at hi with h1 h2
          · simp at hi; subst hi; simp at hne
          · simp at hi; subst hi; exact ⟨b, by simp [h2, hy], rfl, rfl⟩
          · exact ⟨c, by simp [h2, hi], rfl, rfl⟩
        · intro i j c d hi hj hna hnc hfij
          simp only [Machine.set, MemoryMapping.move_assign] at hi hj
          beta_reduce at hfij
          split_ifs at hi hj hfij <;>
            (try simp only [Option.some.injEq] at hi) <;>
            (try simp only [Option.some.injEq] at hj) <;>
            (try subst hi) <;> (try subst hj) <;>
            first
              | omega
              | exact absurd rfl hna
              | exact absurd rfl hnc
  | swap x y =>
    cases hx : m.objs x with
    | none => exact hkeep (by simp [step, hx])
    | some a =>
      cases hy : m.objs y with
      | none => exact hkeep (by simp [step, hx, hy])
      | some b =>
        refine hmove ((m.set x (some (MemoryMapping.swap a b).1)).set y
          (some (MemoryMapping.swap a b).2)) (by simp [step, hx, hy]) rfl ?_
        refine inv_of_inj m _ (fun i => if i = y then x else if i = x then y else i)
          hinv rfl ?_ ?_
        · intro i c hi hne
          simp only [Machine.set, MemoryMapping.swap] at hi
          split_ifs at hi with h1 h2
          · simp at hi; subst hi; exact ⟨a, by simp [h1, hx], rfl, rfl⟩
          · simp at hi; subst hi; subst h2; exact ⟨b, by simp [h1, hy], rfl, rfl⟩
          · exact ⟨c, by simp [h1, h2, hi], rfl, rfl⟩
        · intro i j c d hi hj hna hnc hfij
          beta_reduce at hfij
          split_ifs at hfij <;> omega
  | destroy x =>
    cases hx : m.objs x with
    | none => exact hkeep (by simp [step, hx])
    | some a =>
      have h := release_inv m x a none hx (by simp) hinv
      have hs : step m (.destroy x)
          = ({ m with os := (MemoryMapping.dtor a m.os).2 }).set x none := by
        simp [step, hx]
      simp only [munmap_calls, hs]
      exact h
  | destructor_call x =>
    cases hx : m.objs x with
    | none => exact hkeep (by simp [step, hx])
    | some a =>
      have h := release_inv m x a (some (MemoryMapping.dtor a m.os).1) hx
        (by
          intro c hc
          simp only [Option.some.injEq] at hc
          subst hc
          by_cases h0 : a.m_data = 0
          · rw [dtor_null a m.os h0]; exact h0
          · rw [dtor_nonnull a m.os h0]) hinv
      have hs : step m (.destructor_call x)
          = ({ m with os := (MemoryMapping.dtor a m.os).2 }).set x
              (some (MemoryMapping.dtor a m.os).1) := by
        simp [step, hx]
      simp only [munmap_calls, hs]
      exact h

/-- The invariant holds of the initial machine. -/
theorem inv_init : Inv Machine.init := by
  refine ⟨?_, ?_, ?_⟩
  · intro x y a b hx
    simp [Machine.init] at hx
  · simp [mapped_bases, Machine.init, Posix.init]
  · intro x a hx
    simp [Machine.init] at hx

/-- Along a program to which the kernel returns fresh address ranges, the
invariant holds after every number of statements, and the kernel returns a fresh
address range to the next statement. -/
theorem run_inv (ops : List Op) : ∀ (m : Machine) (k : Nat), Inv m → fresh_run m ops = true →
    Inv (run m (ops.take k)) ∧
    ∀ op, ops[k]? = some op → fresh_step (run m (ops.take k)) op = true := by
  induction ops with
  | nil =>
    intro m k hinv _
    simp [run, hinv]
  | cons op ops ih =>
    intro m k hinv hfresh
    simp only [fresh_run, Bool.and_eq_true] at hfresh
    cases k with
    | zero =>
      refine ⟨by simpa [run] using hinv, ?_⟩
      intro op1 hop
      simp only [List.getElem?_cons_zero, Option.some.injEq] at hop
      subst hop
      simpa [run] using hfresh.1
    | succ k =>
      have h := ih (step m op) k (step_inv m op hinv hfresh.1).1 hfresh.2
      simpa [run] using h

/-- C2. For every program over `MemoryMapping` variables (construction from a
path, move construction, move assignment, swap, destruction, and a release by a
destructor call ahead of the destruction, in any order and with any outcome of
the system calls), run from the initial machine, if the kernel returns a fresh
address range for each successful mapping (an address that is not the base of a
region mapped at that moment; a released address may come back), then after
every number `k` of statements: no two different variables hold the same
non-null base address; the mapped regions have pairwise distinct bases; the
region of every non-null base a variable holds is mapped; and every `munmap` the
next statement issues is on a region that is mapped at that moment and not
mapped any more after it. So no `munmap` is ever issued on a region that was
already unmapped: no mapped region is unmapped more than once, also when a
moved-from or an already released variable is destroyed. -/
theorem C2_exclusive_ownership_no_double_unmap (ops : List Op)
    (hfresh : fresh_run Machine.init ops = true) (k : Nat) :
    Exclusive (run Machine.init (ops.take k)) ∧
    (mapped_bases (run Machine.init (ops.take k))).Nodup ∧
    (∀ x a, (run Machine.init (ops.take k)).objs x = some a → a.m_data ≠ 0 →
      (a.m_data, a.m_size) ∈ (run Machine.init (ops.take k)).os.maps) ∧
    (∀ op, ops[k]? = some op → ∀ c ∈ munmap_calls (run Machine.init (ops.take k)) op,
      c ∈ (run Machine.init (ops.take k)).os.maps ∧
      c.1 ∉ mapped_bases (step (run Machine.init (ops.take k)) op)) := by
  obtain ⟨hinv, hnext⟩ := run_inv ops Machine.init k inv_init hfresh
  refine ⟨hinv.1, hinv.2.1, hinv.2.2, ?_⟩
  intro op hop
  exact (step_inv _ op hinv (hnext op hop)).2

/-- Witness of C2 on `recycle_program`, where the kernel returns the address 4096
a second time after its region was unmapped, at the destructor call on the
variable 1 (the statement number 3). -/
theorem C2_exclusive_ownership_no_double_unmap_witness :
    fresh_run Machine.init recycle_program = true ∧
    Exclusive (run Machine.init (recycle_program.take 3)) ∧
    (mapped_bases (run Machine.init (recycle_program.take 3))).Nodup ∧
    (∀ x a, (run Machine.init (recycle_program.take 3)).objs x = some a → a.m_data ≠ 0 →
      (a.m_data, a.m_size) ∈ (run Machine.init (recycle_program.take 3)).os.maps) ∧
    (∀ op, recycle_program[3]? = some op →
      ∀ c ∈ munmap_calls (run Machine.init (recycle_program.take 3)) op,
      c ∈ (run Machine.init (recycle_program.take 3)).os.maps ∧
      c.1 ∉ mapped_bases (step (run Machine.init (recycle_program.take 3)) op)) :=
  ⟨rfl, C2_exclusive_ownership_no_double_unmap recycle_program rfl 3⟩

end nzl
